import Mathlib

/-!
Verification of the photo collection interaction engine of a client-side
photo library viewer: the photo store's query/mutation surface, date-based
grouping, the grid's multi-select state machine, and the full-screen
viewer's navigation and zoom logic.  Definitions are shallow embeddings of
the TypeScript source (`App`, `PhotoGrid`, `PhotoViewer`): JavaScript
arrays become `List`, `Set` becomes an insertion-ordered duplicate-free
`List`, numbers used by the zoom logic become `ℚ`, and possibly-`undefined`
array reads become `Option`.
-/

namespace PhotosClone

/-- The `Photo` record from `types/photo.ts`. -/
structure Photo where
  id : String
  name : String
  url : String
  thumbnail : String
  size : Nat
  type : String
  width : Nat
  height : Nat
  uploadedAt : String
  isFavorite : Bool
  tags : List String
  location : Option String
deriving Repr, DecidableEq

/-! ## PhotoStore surface (`App.tsx`) -/

/-- `toggleFavorite` from `App`: maps over the collection, flipping
`isFavorite` on every record whose `id` matches, leaving the rest alone. -/
def toggleFavorite (photos : List Photo) (photoId : String) : List Photo :=
  photos.map fun photo =>
    if photo.id == photoId then { photo with isFavorite := !photo.isFavorite } else photo

/-- Model of JavaScript `s.toLowerCase()`: lower-case the characters. -/
def jsLower (s : String) : List Char := s.toList.map Char.toLower

/-- Model of JavaScript `s.includes(q)`: `q` occurs contiguously in `s`. -/
def jsIncludes (s q : List Char) : Bool := decide (q <:+: s)

/-- The search predicate inside `filteredPhotos` in `App`: case-insensitive
substring match of the query against the name or against any tag. -/
def photoMatches (searchQuery : String) (photo : Photo) : Bool :=
  jsIncludes (jsLower photo.name) (jsLower searchQuery)
    || photo.tags.any fun tag => jsIncludes (jsLower tag) (jsLower searchQuery)

/-- `filteredPhotos` from `App`: `photos.filter(...)`. -/
def filteredPhotos (photos : List Photo) (searchQuery : String) : List Photo :=
  photos.filter (photoMatches searchQuery)

/-! ## Viewer zoom (`PhotoViewer.tsx`) -/

/-- `handleZoomIn` from `PhotoViewer`: `Math.min(prev * 1.5, 5)`. -/
def handleZoomIn (zoom : ℚ) : ℚ := min (zoom * (3 / 2)) 5

/-- `handleZoomOut` from `PhotoViewer`: `Math.max(prev / 1.5, 0.5)`. -/
def handleZoomOut (zoom : ℚ) : ℚ := max (zoom / (3 / 2)) (1 / 2)

/-- One viewer zoom interaction: the zoom-in or the zoom-out button. -/
inductive ZoomOp
  | zin
  | zout
deriving Repr, DecidableEq

def applyZoomOp (zoom : ℚ) (op : ZoomOp) : ℚ :=
  match op with
  | .zin => handleZoomIn zoom
  | .zout => handleZoomOut zoom

/-- The zoom value after a sequence of interactions, starting from the
initial `useState(1)`. -/
def applyZoomOps (ops : List ZoomOp) : ℚ := ops.foldl applyZoomOp 1

/-! ## Selection state machine (`PhotoGrid.tsx`) -/

/-- The selection-related component state of `PhotoGrid`:
`isSelectionMode` (the `mode` of the spec, `true` = `Selecting`) and
`selectedPhotos`, a JavaScript `Set<string>` embedded as an
insertion-ordered duplicate-free list. -/
structure SelState where
  isSelectionMode : Bool
  selectedPhotos : List String
deriving Repr, DecidableEq

/-- JavaScript `Set.prototype.add`: appends if absent. -/
def setAdd (l : List String) (x : String) : List String :=
  if l.contains x then l else l ++ [x]

/-- JavaScript `Set.prototype.delete`: removes the element. -/
def setDelete (l : List String) (x : String) : List String :=
  l.filter fun y => y != x

/-- JavaScript `new Set(xs)`: inserts the elements in order. -/
def setOfList (l : List String) : List String := l.foldl setAdd []

/-- `togglePhotoSelection` from `PhotoGrid`: toggles membership of the id in
the selected set, and leaves selection mode when the resulting set is
empty. -/
def togglePhotoSelection (s : SelState) (photoId : String) : SelState :=
  let newSet :=
    if s.selectedPhotos.contains photoId then setDelete s.selectedPhotos photoId
    else setAdd s.selectedPhotos photoId
  { isSelectionMode := if newSet.isEmpty then false else s.isSelectionMode,
    selectedPhotos := newSet }

/-- `startSelectionMode` from `PhotoGrid`. -/
def startSelectionMode (photoId : String) : SelState :=
  { isSelectionMode := true, selectedPhotos := [photoId] }

/-- `exitSelectionMode` from `PhotoGrid`. -/
def exitSelectionMode : SelState :=
  { isSelectionMode := false, selectedPhotos := [] }

/-- `selectAllPhotos` from `PhotoGrid`: replaces the selected set with the
ids of the currently visible photos; it does not touch
`isSelectionMode`. -/
def selectAllPhotos (photos : List Photo) (s : SelState) : SelState :=
  { s with selectedPhotos := setOfList (photos.map Photo.id) }

/-- One user-visible transition of the grid's selection state machine.  The
grid renders nothing when the visible photo list is empty
(`if (photos.length === 0) return null`), so every event carries the
hypothesis that the visible list is non-empty; long-press is only a
selection entry outside selection mode, and the toolbar events (toggle via
click, select-all, cancel, delete) exist only while in selection mode. -/
inductive SelStep : SelState → SelState → Prop
  | longPress (photos : List Photo) (p : Photo) (s : SelState) :
      photos ≠ [] → s.isSelectionMode = false → p ∈ photos →
      SelStep s (startSelectionMode p.id)
  | togglePhoto (photos : List Photo) (p : Photo) (s : SelState) :
      photos ≠ [] → s.isSelectionMode = true → p ∈ photos →
      SelStep s (togglePhotoSelection s p.id)
  | selectAll (photos : List Photo) (s : SelState) :
      photos ≠ [] → s.isSelectionMode = true →
      SelStep s (selectAllPhotos photos s)
  | cancel (photos : List Photo) (s : SelState) :
      photos ≠ [] → s.isSelectionMode = true →
      SelStep s exitSelectionMode
  | deleteSelected (photos : List Photo) (s : SelState) :
      photos ≠ [] → s.isSelectionMode = true →
      SelStep s exitSelectionMode

/-- The initial component state: `useState(false)` / `useState(new Set())`. -/
def selInit : SelState := { isSelectionMode := false, selectedPhotos := [] }

/-- The selection states reachable from the initial state. -/
def SelReachable (s : SelState) : Prop := Relation.ReflTransGen SelStep selInit s

/-! ## Bulk actions over the selection (`PhotoGrid.tsx` toolbar) -/

/-- Flip a photo's favorite flag, as the spread `{ ...photo, isFavorite:
!photo.isFavorite }` does. -/
def flipFav (p : Photo) : Photo := { p with isFavorite := !p.isFavorite }

/-- The favorite-selected toolbar handler:
`selectedPhotos.forEach(photoId => onToggleFavorite(photoId))`, where
`onToggleFavorite` is the store's `toggleFavorite`. -/
def favoriteSelected (photos : List Photo) (s : SelState) : List Photo :=
  s.selectedPhotos.foldl toggleFavorite photos

/-- The download-selected toolbar handler: iterates the selected set in
order and downloads each id's photo when `photos.find` locates it.  The
result is the sequence of photos handed to `downloadPhoto`. -/
def downloadSelected (photos : List Photo) (s : SelState) : List Photo :=
  s.selectedPhotos.filterMap fun photoId => photos.find? fun p => p.id == photoId

/-- Modelled from the spec: the `remove(id)` operation of the PhotoStore
(`App` never passes an `onDeletePhoto` callback, so the deletion consumer
is absent from the sources); per §4.1 it removes the record with the given
id. -/
def removePhoto (photos : List Photo) (photoId : String) : List Photo :=
  photos.filter fun p => p.id != photoId

/-- The delete-selected toolbar handler: `selectedPhotos.forEach(photoId =>
onDeletePhoto(photoId))` followed by `exitSelectionMode()`. -/
def deleteSelected (photos : List Photo) (s : SelState) : List Photo × SelState :=
  (s.selectedPhotos.foldl removePhoto photos, exitSelectionMode)

/-! ## Viewer navigation (`App.tsx` `onNext`/`onPrevious`,
`PhotoViewer.tsx` reset effect) -/

/-- JavaScript `photos.findIndex(p => p.id === photoId)`: the first matching
index, or `-1` when no element matches. -/
def findIndexJS (photos : List Photo) (photoId : String) : Int :=
  match photos.findIdx? (fun p => p.id == photoId) with
  | some i => (i : Int)
  | none => -1

/-- JavaScript array subscription `photos[i]`: `undefined` (here `none`)
outside the bounds. -/
def getJS (photos : List Photo) (i : Int) : Option Photo :=
  if h : 0 ≤ i ∧ i.toNat < photos.length then some (photos.get ⟨i.toNat, h.2⟩)
  else none

/-- The `nextIndex` computed by `onNext` in `App`:
`(currentIndex + 1) % displayPhotos.length` with JavaScript's truncating
remainder. -/
def nextIndexJS (photos : List Photo) (photoId : String) : Int :=
  (findIndexJS photos photoId + 1).tmod (photos.length : Int)

/-- The `prevIndex` computed by `onPrevious` in `App`:
`currentIndex === 0 ? displayPhotos.length - 1 : currentIndex - 1`. -/
def prevIndexJS (photos : List Photo) (photoId : String) : Int :=
  if findIndexJS photos photoId = 0 then (photos.length : Int) - 1
  else findIndexJS photos photoId - 1

/-- The `onNext` callback of `App`: the photo handed to
`setSelectedPhoto`. -/
def onNext (photos : List Photo) (selectedPhoto : Photo) : Option Photo :=
  getJS photos (nextIndexJS photos selectedPhoto.id)

/-- The `onPrevious` callback of `App`: the photo handed to
`setSelectedPhoto`. -/
def onPrevious (photos : List Photo) (selectedPhoto : Photo) : Option Photo :=
  getJS photos (prevIndexJS photos selectedPhoto.id)

/-- A concrete photo record, for exercising the theorems. -/
def samplePhoto (photoId : String) : Photo :=
  { id := photoId, name := photoId, url := "", thumbnail := "", size := 0,
    type := "image/png", width := 1, height := 1,
    uploadedAt := "2024-01-01T00:00:00.000Z", isFavorite := false,
    tags := [], location := none }

/-- The sub-state the `PhotoViewer` component keeps per mounted viewer,
together with the host's `selectedPhoto`: the current photo, the zoom, and
the pan offset.  `PhotoViewer` resets `zoom` and `position` in an effect
that runs exactly when `photo.id` changes. -/
structure ViewerState where
  current : Photo
  zoom : ℚ
  panX : ℚ
  panY : ℚ
deriving Repr, DecidableEq

/-- The combined effect of the `next` interaction: `App.onNext` replaces
`selectedPhoto`, and `PhotoViewer`'s reset effect (keyed on `photo.id`)
clears zoom and pan only when the new photo's id differs from the old
one. -/
def viewerNext (photos : List Photo) (st : ViewerState) : Option ViewerState :=
  (onNext photos st.current).map fun q =>
    if q.id == st.current.id then { st with current := q }
    else { current := q, zoom := 1, panX := 0, panY := 0 }

/-- The combined effect of the `previous` interaction, analogous to
`viewerNext`. -/
def viewerPrevious (photos : List Photo) (st : ViewerState) : Option ViewerState :=
  (onPrevious photos st.current).map fun q =>
    if q.id == st.current.id then { st with current := q }
    else { current := q, zoom := 1, panX := 0, panY := 0 }

/-! ## Date grouping (`PhotoGrid.tsx` `groupedPhotos` and bucket sort) -/

/-- Modelled from the spec: `formatDate` of the `utils/format` module (not
among the sources) truncates the ISO-8601 `uploadedAt` timestamp to its
calendar-day label (spec §4.2 step 1; the §8 scenario uses day labels such
as `"2024-01-01"`). -/
def formatDate (uploadedAt : String) : String :=
  String.mk (uploadedAt.toList.take 10)

/-- Modelled from the spec: parsing a day label back to a date for the
descending bucket sort (`new Date(label).getTime()`); on equal-length
calendar-day labels the value is monotone in the label's character
sequence, hence in calendar order. -/
def parseDay (label : String) : Nat :=
  label.toList.foldl (fun n c => n * 256 + c.toNat) 0

/-- One step of the `photos.reduce` in `PhotoGrid`: append the photo to its
label's bucket, creating the bucket at the end on first sight (JavaScript
object insertion order). -/
def addToGroup (groups : List (String × List Photo)) (photo : Photo) :
    List (String × List Photo) :=
  let date := formatDate photo.uploadedAt
  if groups.any (fun e => e.1 == date) then
    groups.map fun e => if e.1 == date then (e.1, e.2 ++ [photo]) else e
  else groups ++ [(date, [photo])]

/-- `groupedPhotos` from `PhotoGrid`: the reduce over the visible photos. -/
def groupedPhotos (photos : List Photo) : List (String × List Photo) :=
  photos.foldl addToGroup []

/-- The bucket comparator of `PhotoGrid`'s
`.sort(([a], [b]) => new Date(b).getTime() - new Date(a).getTime())`:
bucket `a` may precede `b` when `b`'s parsed date is at most `a`'s. -/
def bucketLE (a b : String × List Photo) : Bool :=
  decide (parseDay b.1 ≤ parseDay a.1)

/-- `Object.entries(groupedPhotos).sort(...)`: the date buckets, most
recent first (JavaScript's sort is stable; a stable merge sort models
it). -/
def groupByDate (photos : List Photo) : List (String × List Photo) :=
  (groupedPhotos photos).mergeSort bucketLE

/-- The invariant the grouping fold maintains: bucket labels are
duplicate-free, each bucket holds exactly the processed photos carrying its
label in processed order, and every processed photo's label has a
bucket. -/
def GroupInv (processed : List Photo) (acc : List (String × List Photo)) : Prop :=
  (acc.map Prod.fst).Nodup
  ∧ (∀ e ∈ acc, e.2 = processed.filter fun p => formatDate p.uploadedAt == e.1)
  ∧ ∀ p ∈ processed, formatDate p.uploadedAt ∈ acc.map Prod.fst

/-! ## Theorems -/

/-- Flipping a photo's favorite flag twice is the identity. -/
theorem flip_flip (p : Photo) :
    ({ { p with isFavorite := !p.isFavorite } with
        isFavorite := !(!p.isFavorite) } : Photo) = p := by
  cases p; simp

theorem toggleFavorite_toggleFavorite (photos : List Photo) (photoId : String) :
    toggleFavorite (toggleFavorite photos photoId) photoId = photos := by
  induction photos with
  | nil => rfl
  | cons p ps ih =>
    simp only [toggleFavorite, List.map_cons, List.map_map] at *
    refine congrArg₂ List.cons ?_ ih
    by_cases h : p.id == photoId
    · simp [h, flip_flip p]
    · simp [h]

theorem toggleFavorite_of_not_mem (photos : List Photo) (photoId : String)
    (h : ∀ p ∈ photos, p.id ≠ photoId) : toggleFavorite photos photoId = photos := by
  induction photos with
  | nil => rfl
  | cons p ps ih =>
    have hp : ¬(p.id == photoId) = true := by
      simpa using h p (List.mem_cons_self p ps)
    simp only [toggleFavorite, List.map_cons] at *
    rw [if_neg hp, ih fun q hq => h q (List.mem_cons_of_mem p hq)]

/-- C9: `toggleFavorite(id)` flips the `isFavorite` flag of the matching
record and touches no other record, is a silent no-op when no record has
that id, and applying it twice (with any id, in particular an existing one)
restores the original `isFavorite` value of every record. -/
theorem toggleFavorite_spec (photos : List Photo) (photoId : String) :
    toggleFavorite (toggleFavorite photos photoId) photoId = photos
    ∧ ((∀ p ∈ photos, p.id ≠ photoId) → toggleFavorite photos photoId = photos)
    ∧ toggleFavorite photos photoId
        = photos.map fun p =>
            if p.id = photoId then { p with isFavorite := !p.isFavorite } else p := by
  refine ⟨toggleFavorite_toggleFavorite photos photoId,
    toggleFavorite_of_not_mem photos photoId, ?_⟩
  simp [toggleFavorite]

/-- C8: `filter` returns exactly the photos whose lower-cased name contains
the lower-cased query as a contiguous substring, or one of whose tags does;
the empty query matches every photo; and the result is a sublist of the
collection, hence preserves insertion order. -/
theorem filteredPhotos_spec (photos : List Photo) (searchQuery : String) :
    (∀ p, p ∈ filteredPhotos photos searchQuery ↔
        p ∈ photos ∧ (jsLower searchQuery <:+: jsLower p.name
          ∨ ∃ tag ∈ p.tags, jsLower searchQuery <:+: jsLower tag))
    ∧ filteredPhotos photos "" = photos
    ∧ (filteredPhotos photos searchQuery).Sublist photos := by
  refine ⟨?_, ?_, List.filter_sublist photos⟩
  · intro p
    simp [filteredPhotos, List.mem_filter, photoMatches, jsIncludes,
      List.any_eq_true]
  · have hempty : ∀ p : Photo, photoMatches "" p = true := by
      intro p
      have : jsLower "" = [] := rfl
      simp [photoMatches, jsIncludes, this, List.nil_infix]
    simp [filteredPhotos, List.filter_eq_self.mpr fun p _ => hempty p]

theorem applyZoomOp_bounds {zoom : ℚ} (h₁ : 1 / 2 ≤ zoom) (h₂ : zoom ≤ 5)
    (op : ZoomOp) : 1 / 2 ≤ applyZoomOp zoom op ∧ applyZoomOp zoom op ≤ 5 := by
  cases op with
  | zin =>
    refine ⟨le_min (by nlinarith) (by norm_num), min_le_of_right_le le_rfl⟩
  | zout =>
    refine ⟨le_max_right _ _, max_le ?_ (by norm_num)⟩
    rw [div_le_iff₀ (by norm_num)]
    nlinarith

theorem foldl_applyZoomOp_bounds (ops : List ZoomOp) :
    ∀ zoom : ℚ, 1 / 2 ≤ zoom → zoom ≤ 5 →
      1 / 2 ≤ ops.foldl applyZoomOp zoom ∧ ops.foldl applyZoomOp zoom ≤ 5 := by
  induction ops with
  | nil => exact fun z h₁ h₂ => ⟨h₁, h₂⟩
  | cons op ops ih =>
    intro z h₁ h₂
    obtain ⟨g₁, g₂⟩ := applyZoomOp_bounds h₁ h₂ op
    simpa using ih (applyZoomOp z op) g₁ g₂

/-- C3: `zoomIn` maps the zoom to `min(zoom * 1.5, 5)`, `zoomOut` maps it to
`max(zoom / 1.5, 0.5)`, and starting from the initial zoom of `1` every
finite sequence of zoom-in/zoom-out interactions leaves the zoom within
`[0.5, 5]`. -/
theorem zoom_spec (ops : List ZoomOp) :
    (∀ z : ℚ, handleZoomIn z = min (z * (3 / 2)) 5)
    ∧ (∀ z : ℚ, handleZoomOut z = max (z / (3 / 2)) (1 / 2))
    ∧ 1 / 2 ≤ applyZoomOps ops ∧ applyZoomOps ops ≤ 5 := by
  refine ⟨fun z => rfl, fun z => rfl, ?_⟩
  exact foldl_applyZoomOp_bounds ops 1 (by norm_num) (by norm_num)

theorem mem_togglePhotoSelection (s : SelState) (photoId x : String) :
    x ∈ (togglePhotoSelection s photoId).selectedPhotos ↔
      (if photoId = x then x ∉ s.selectedPhotos else x ∈ s.selectedPhotos) := by
  by_cases hc : s.selectedPhotos.contains photoId
  · have hmem : photoId ∈ s.selectedPhotos := by simpa using hc
    simp only [togglePhotoSelection]
    rw [if_pos hc]
    by_cases hx : photoId = x
    · subst hx
      simp [setDelete, List.mem_filter, hmem]
    · have hxx : x ≠ photoId := fun h => hx h.symm
      simp [setDelete, List.mem_filter, hx, hxx]
  · have hmem : photoId ∉ s.selectedPhotos := by simpa using hc
    simp only [togglePhotoSelection]
    rw [if_neg hc]
    by_cases hx : photoId = x
    · subst hx
      simp [setAdd, hc, List.mem_append, hmem]
    · have hxx : x ≠ photoId := fun h => hx h.symm
      simp [setAdd, hc, hmem, List.mem_append, hx, hxx]

theorem mem_foldl_togglePhotoSelection (ids : List String) :
    ∀ (s : SelState) (x : String),
      (x ∈ (ids.foldl togglePhotoSelection s).selectedPhotos ↔
        (Even (ids.count x) ↔ x ∈ s.selectedPhotos)) := by
  induction ids with
  | nil => intro s x; simp
  | cons photoId ids ih =>
    intro s x
    rw [List.foldl_cons, ih (togglePhotoSelection s photoId) x,
      mem_togglePhotoSelection, List.count_cons]
    by_cases hx : x = photoId
    · subst hx
      simp only [if_pos rfl, beq_self_eq_true, if_pos]
      rw [Nat.even_add_one]
      tauto
    · have : ¬photoId = x := fun h => hx h.symm
      simp [this, hx]

/-- C4: in selection mode a click on photo `P` toggles membership of `P.id`
in the selected set and leaves membership of every other id unchanged; if
the resulting set is empty the grid leaves selection mode; consequently,
starting from the empty selection left by the last transition to normal
mode, after any sequence of toggles an id is selected exactly when it was
toggled an odd number of times. -/
theorem selection_toggle_spec (s t : SelState) (ids : List String)
    (x y photoId : String) (hs : s.selectedPhotos = []) :
    (x ∈ (ids.foldl togglePhotoSelection s).selectedPhotos ↔ Odd (ids.count x))
    ∧ (y ∈ (togglePhotoSelection t photoId).selectedPhotos ↔
        (if photoId = y then y ∉ t.selectedPhotos else y ∈ t.selectedPhotos))
    ∧ ((togglePhotoSelection t photoId).selectedPhotos = [] →
        (togglePhotoSelection t photoId).isSelectionMode = false) := by
  refine ⟨?_, mem_togglePhotoSelection t photoId y, ?_⟩
  · rw [mem_foldl_togglePhotoSelection ids s x, hs, Nat.not_even_iff_odd.symm]
    simp
  · intro h
    simp only [togglePhotoSelection] at h ⊢
    rw [h]
    rfl

/-- Witness for `selection_toggle_spec` at a concrete toggle sequence. -/
theorem selection_toggle_spec_witness :
    (exitSelectionMode.selectedPhotos = []) ∧
    (("a" ∈ ((["a", "b", "a", "c"].foldl togglePhotoSelection
          exitSelectionMode).selectedPhotos) ↔ Odd (["a", "b", "a", "c"].count "a"))
    ∧ ("b" ∈ (togglePhotoSelection (startSelectionMode "c") "b").selectedPhotos ↔
        (if "b" = "b" then "b" ∉ (startSelectionMode "c").selectedPhotos
         else "b" ∈ (startSelectionMode "c").selectedPhotos))
    ∧ ((togglePhotoSelection (startSelectionMode "c") "b").selectedPhotos = [] →
        (togglePhotoSelection (startSelectionMode "c") "b").isSelectionMode = false)) :=
  ⟨rfl, selection_toggle_spec exitSelectionMode (startSelectionMode "c")
    ["a", "b", "a", "c"] "a" "b" "b" rfl⟩

theorem foldl_setAdd_ne_nil (l : List String) :
    ∀ acc : List String, acc ≠ [] → l.foldl setAdd acc ≠ [] := by
  induction l with
  | nil => exact fun acc h => h
  | cons a l ih =>
    intro acc hacc
    refine ih (setAdd acc a) ?_
    unfold setAdd
    split
    · exact hacc
    · exact List.append_ne_nil_of_right_ne_nil acc (by simp)

theorem setOfList_ne_nil {l : List String} (h : l ≠ []) : setOfList l ≠ [] := by
  cases l with
  | nil => exact absurd rfl h
  | cons a l =>
    have : setAdd [] a = [a] := rfl
    simpa [setOfList, this] using foldl_setAdd_ne_nil l [a] (by simp)

theorem selStep_preserves {s s' : SelState} (h : SelStep s s')
    (_hinv : s.isSelectionMode = true ↔ s.selectedPhotos ≠ []) :
    s'.isSelectionMode = true ↔ s'.selectedPhotos ≠ [] := by
  cases h with
  | longPress photos p s hne hmode hp => simp [startSelectionMode]
  | togglePhoto photos p s hne hmode hp =>
    simp only [togglePhotoSelection]
    by_cases hempty :
        (if s.selectedPhotos.contains p.id then setDelete s.selectedPhotos p.id
         else setAdd s.selectedPhotos p.id).isEmpty
    · rw [if_pos hempty, List.isEmpty_iff.mp hempty]
      simp
    · rw [if_neg hempty]
      simp only [hmode, true_iff]
      exact fun hnil => hempty (List.isEmpty_iff.mpr hnil)
  | selectAll photos s hne hmode =>
    have : (selectAllPhotos photos s).isSelectionMode = s.isSelectionMode := rfl
    rw [this, hmode]
    simp only [true_iff]
    exact setOfList_ne_nil (by simpa using hne)
  | cancel photos s hne hmode => simp [exitSelectionMode]
  | deleteSelected photos s hne hmode => simp [exitSelectionMode]

/-- C5: in every selection state reachable through the grid's transitions,
the grid is in selection mode exactly when the selected set is non-empty;
and the raw select-all operation on an empty visible list keeps a
normal-mode controller in normal mode with an empty selection (with the
code's rendering guard such an event can in fact never fire). -/
theorem selection_mode_invariant (s : SelState) (h : SelReachable s) :
    (s.isSelectionMode = true ↔ s.selectedPhotos ≠ [])
    ∧ ∀ t : SelState, t.isSelectionMode = false →
        (selectAllPhotos [] t).isSelectionMode = false
          ∧ (selectAllPhotos [] t).selectedPhotos = [] := by
  refine ⟨?_, fun t ht => ⟨ht, rfl⟩⟩
  induction h with
  | refl => simp [selInit]
  | tail hab hstep ih => exact selStep_preserves hstep ih

/-- Witness for `selection_mode_invariant` at the initial state. -/
theorem selection_mode_invariant_witness :
    SelReachable selInit ∧
    ((selInit.isSelectionMode = true ↔ selInit.selectedPhotos ≠ [])
    ∧ ∀ t : SelState, t.isSelectionMode = false →
        (selectAllPhotos [] t).isSelectionMode = false
          ∧ (selectAllPhotos [] t).selectedPhotos = []) :=
  ⟨Relation.ReflTransGen.refl,
    selection_mode_invariant selInit Relation.ReflTransGen.refl⟩

theorem flipFav_flipFav (p : Photo) : flipFav (flipFav p) = p := by
  cases p; simp [flipFav]

theorem foldl_toggleFavorite (ids : List String) :
    ∀ photos : List Photo,
      ids.foldl toggleFavorite photos
        = photos.map fun p => if Odd (ids.count p.id) then flipFav p else p := by
  induction ids with
  | nil =>
    intro photos
    simp [Nat.odd_iff]
  | cons a ids ih =>
    intro photos
    rw [List.foldl_cons, ih (toggleFavorite photos a), toggleFavorite, List.map_map]
    refine List.map_congr_left fun p _ => ?_
    simp only [Function.comp_apply]
    by_cases hpa : p.id == a
    · have hid : p.id = a := by simpa using hpa
      have hcnt : (a :: ids).count p.id = ids.count p.id + 1 := by
        rw [List.count_cons]
        simp [hid]
      have hflipid : (flipFav p).id = p.id := rfl
      have hfold : ({ p with isFavorite := !p.isFavorite } : Photo) = flipFav p := rfl
      rw [if_pos hpa, hfold, hcnt, hflipid, flipFav_flipFav]
      by_cases hodd : Odd (ids.count p.id)
      · have hnot : ¬Odd (ids.count p.id + 1) := by
          rw [Nat.odd_iff] at hodd ⊢
          omega
        rw [if_pos hodd, if_neg hnot]
      · have hyes : Odd (ids.count p.id + 1) := by
          rw [Nat.odd_iff] at hodd ⊢
          omega
        rw [if_neg hodd, if_pos hyes]
    · have hid : ¬p.id = a := by simpa using hpa
      simp [hpa, List.count_cons, hid]

theorem foldl_removePhoto (ids : List String) :
    ∀ photos : List Photo,
      ids.foldl removePhoto photos
        = photos.filter fun p => !(ids.contains p.id) := by
  induction ids with
  | nil => intro photos; simp
  | cons a ids ih =>
    intro photos
    rw [List.foldl_cons, ih (removePhoto photos a), removePhoto, List.filter_filter]
    refine List.filter_congr fun p _ => ?_
    by_cases h : p.id = a <;> simp [h, List.contains_cons, Bool.and_comm]

/-- C6: the three bulk toolbar actions iterate over the selected set, whose
iteration sequence lists every selected id exactly once; favoriting the
selection flips the favorite flag of exactly the photos whose id is
selected (each exactly once); deleting the selection removes exactly the
photos whose id is selected and then leaves selection mode with an empty
selected set. -/
theorem bulk_action_spec (photos : List Photo) (s : SelState)
    (hnd : s.selectedPhotos.Nodup) :
    (∀ photoId, s.selectedPhotos.count photoId
        = if photoId ∈ s.selectedPhotos then 1 else 0)
    ∧ favoriteSelected photos s
        = photos.map (fun p => if p.id ∈ s.selectedPhotos then flipFav p else p)
    ∧ downloadSelected photos s
        = s.selectedPhotos.filterMap (fun photoId => photos.find? fun p => p.id == photoId)
    ∧ (deleteSelected photos s).1
        = photos.filter (fun p => !(s.selectedPhotos.contains p.id))
    ∧ (deleteSelected photos s).2.isSelectionMode = false
    ∧ (deleteSelected photos s).2.selectedPhotos = [] := by
  have hcount : ∀ photoId, s.selectedPhotos.count photoId
      = if photoId ∈ s.selectedPhotos then 1 else 0 := by
    intro photoId
    by_cases hmem : photoId ∈ s.selectedPhotos
    · rw [if_pos hmem, List.count_eq_one_of_mem hnd hmem]
    · rw [if_neg hmem, List.count_eq_zero_of_not_mem hmem]
  refine ⟨hcount, ?_, rfl, ?_, rfl, rfl⟩
  · rw [favoriteSelected, foldl_toggleFavorite]
    refine List.map_congr_left fun p _ => ?_
    rw [hcount p.id]
    by_cases hmem : p.id ∈ s.selectedPhotos
    · simp [hmem]
    · simp [hmem, Nat.odd_iff]
  · rw [deleteSelected, foldl_removePhoto]

/-- Witness for `bulk_action_spec` at a concrete selection. -/
theorem bulk_action_spec_witness :
    (["a", "b"] : List String).Nodup ∧
    ((∀ photoId, (["a", "b"] : List String).count photoId
        = if photoId ∈ (["a", "b"] : List String) then 1 else 0)
    ∧ favoriteSelected [] { isSelectionMode := true, selectedPhotos := ["a", "b"] }
        = ([] : List Photo).map
            (fun p => if p.id ∈ (["a", "b"] : List String) then flipFav p else p)
    ∧ downloadSelected [] { isSelectionMode := true, selectedPhotos := ["a", "b"] }
        = (["a", "b"] : List String).filterMap
            (fun photoId => ([] : List Photo).find? fun p => p.id == photoId)
    ∧ (deleteSelected [] { isSelectionMode := true, selectedPhotos := ["a", "b"] }).1
        = ([] : List Photo).filter (fun p => !((["a", "b"] : List String).contains p.id))
    ∧ (deleteSelected [] { isSelectionMode := true, selectedPhotos := ["a", "b"] }).2.isSelectionMode
        = false
    ∧ (deleteSelected [] { isSelectionMode := true, selectedPhotos := ["a", "b"] }).2.selectedPhotos
        = []) :=
  ⟨by decide, bulk_action_spec [] { isSelectionMode := true, selectedPhotos := ["a", "b"] }
    (by decide)⟩

theorem getJS_ofNat (photos : List Photo) (k : Nat) :
    getJS photos (k : Int) = photos[k]? := by
  unfold getJS
  by_cases h : k < photos.length
  · rw [dif_pos ⟨Int.ofNat_nonneg k, by simpa using h⟩]
    rw [List.getElem?_eq_getElem h]
    simp
  · rw [dif_neg (by simpa using h), List.getElem?_eq_none (Nat.le_of_not_lt h)]

theorem findIndexJS_of_mem {photos : List Photo} {photoId : String}
    (h : photoId ∈ photos.map Photo.id) :
    findIndexJS photos photoId
      = ((photos.findIdx fun p => p.id == photoId : Nat) : Int) := by
  obtain ⟨p, hp, hpid⟩ := List.mem_map.mp h
  unfold findIndexJS
  split
  · next i heq =>
    rw [(List.findIdx?_eq_some_iff_findIdx_eq.mp heq).2]
  · next heq =>
    exact absurd (List.findIdx?_eq_none_iff.mp heq p hp) (by simp [hpid])

theorem findIdx_lt_of_mem {photos : List Photo} {photoId : String}
    (h : photoId ∈ photos.map Photo.id) :
    (photos.findIdx fun p => p.id == photoId) < photos.length := by
  obtain ⟨p, hp, hpid⟩ := List.mem_map.mp h
  exact List.findIdx_lt_length_of_exists ⟨p, hp, by simp [hpid]⟩

theorem id_getElem_findIdx {photos : List Photo} {photoId : String}
    (h : photoId ∈ photos.map Photo.id) :
    (photos.get ⟨photos.findIdx fun p => p.id == photoId, findIdx_lt_of_mem h⟩).id
      = photoId := by
  have hlt := findIdx_lt_of_mem h
  have := photos.findIdx_of_getElem?_eq_some (List.getElem?_eq_getElem hlt)
  simpa using this

/-- On a collection with pairwise-distinct ids, `findIndex` recovers the
index of a stored element from its id. -/
theorem findIdx_getElem_id {photos : List Photo}
    (hnd : (photos.map Photo.id).Nodup) {j : Nat} (hj : j < photos.length) :
    (photos.findIdx fun p => p.id == photos[j].id) = j := by
  have hmem : photos[j].id ∈ photos.map Photo.id :=
    List.mem_map_of_mem Photo.id (photos.getElem_mem hj)
  have hlt := findIdx_lt_of_mem hmem
  have hid := id_getElem_findIdx hmem
  have hjm : j < (photos.map Photo.id).length := by simpa using hj
  have hlm : (photos.findIdx fun p => p.id == photos[j].id)
      < (photos.map Photo.id).length := by simpa using hlt
  have hmapeq : (photos.map Photo.id)[photos.findIdx
        fun p => p.id == photos[j].id]
      = (photos.map Photo.id)[j] := by
    simpa [List.getElem_map] using hid
  exact (hnd.getElem_inj_iff).mp hmapeq

theorem onNext_eq {photos : List Photo} {selectedPhoto : Photo}
    (hmem : selectedPhoto.id ∈ photos.map Photo.id) :
    onNext photos selectedPhoto
      = photos[((photos.findIdx fun p => p.id == selectedPhoto.id) + 1)
          % photos.length]? := by
  unfold onNext nextIndexJS
  rw [findIndexJS_of_mem hmem]
  have h1 : ((photos.findIdx fun p => p.id == selectedPhoto.id : Nat) : Int) + 1
      = (((photos.findIdx fun p => p.id == selectedPhoto.id) + 1 : Nat) : Int) := by
    push_cast
    ring
  rw [h1, ← Int.ofNat_tmod, getJS_ofNat]

theorem onPrevious_eq {photos : List Photo} {selectedPhoto : Photo}
    (hmem : selectedPhoto.id ∈ photos.map Photo.id) :
    onPrevious photos selectedPhoto
      = photos[if (photos.findIdx fun p => p.id == selectedPhoto.id) = 0
          then photos.length - 1
          else (photos.findIdx fun p => p.id == selectedPhoto.id) - 1]? := by
  have hlen : 1 ≤ photos.length := by
    cases photos with
    | nil => simp at hmem
    | cons q qs => simp
  unfold onPrevious prevIndexJS
  rw [findIndexJS_of_mem hmem]
  by_cases h0 : (photos.findIdx fun p => p.id == selectedPhoto.id) = 0
  · rw [if_pos (by exact_mod_cast congrArg (Nat.cast : Nat → Int) h0), if_pos h0]
    have : (photos.length : Int) - 1 = ((photos.length - 1 : Nat) : Int) := by
      omega
    rw [this, getJS_ofNat]
  · have h0' : ¬((photos.findIdx fun p => p.id == selectedPhoto.id : Nat) : Int) = 0 := by
      exact_mod_cast h0
    rw [if_neg h0', if_neg h0]
    have : ((photos.findIdx fun p => p.id == selectedPhoto.id : Nat) : Int) - 1
        = (((photos.findIdx fun p => p.id == selectedPhoto.id) - 1 : Nat) : Int) := by
      omega
    rw [this, getJS_ofNat]

theorem getElem?_map_id_findIdx {photos : List Photo} {photoId : String}
    (hmem : photoId ∈ photos.map Photo.id) :
    (photos[photos.findIdx fun p => p.id == photoId]?).map Photo.id
      = some photoId := by
  have hlt := findIdx_lt_of_mem hmem
  rw [List.getElem?_eq_getElem hlt]
  have hid2 : photos[photos.findIdx fun p => p.id == photoId].id = photoId :=
    id_getElem_findIdx hmem
  simp [hid2]

theorem nav_next_prev_index {i n : Nat} (hi : i < n) (hn : 1 < n) :
    (if (i + 1) % n = 0 then n - 1 else (i + 1) % n - 1) = i := by
  rcases Nat.lt_or_ge (i + 1) n with hc | hc
  · rw [Nat.mod_eq_of_lt hc, if_neg (by omega)]
    omega
  · have hceq : i + 1 = n := by omega
    rw [hceq, Nat.mod_self, if_pos rfl]
    omega

theorem nav_prev_next_index {i n : Nat} (hi : i < n) (hn : 1 < n) :
    ((if i = 0 then n - 1 else i - 1) + 1) % n = i := by
  by_cases h0 : i = 0
  · rw [if_pos h0]
    have h1 : n - 1 + 1 = n := by omega
    rw [h1, Nat.mod_self, h0]
  · rw [if_neg h0]
    have h1 : i - 1 + 1 = i := by omega
    rw [h1, Nat.mod_eq_of_lt hi]

/-- C1: with pairwise-distinct ids and the current photo present, `next`
moves to index `(currentIndex + 1) mod length` and `previous` to
`length - 1` when `currentIndex = 0` and to `currentIndex - 1` otherwise;
`next` then `previous` (and `previous` then `next`) restore the current
photo's id whenever the sequence has length `> 1`, and on a length-one
sequence both operations keep the current photo's id. -/
theorem viewer_nav_spec (photos : List Photo) (selectedPhoto : Photo)
    (hnd : (photos.map Photo.id).Nodup)
    (hmem : selectedPhoto.id ∈ photos.map Photo.id) :
    onNext photos selectedPhoto
        = photos[((photos.findIdx fun p => p.id == selectedPhoto.id) + 1)
            % photos.length]?
    ∧ onPrevious photos selectedPhoto
        = photos[if (photos.findIdx fun p => p.id == selectedPhoto.id) = 0
            then photos.length - 1
            else (photos.findIdx fun p => p.id == selectedPhoto.id) - 1]?
    ∧ (1 < photos.length →
        ((onNext photos selectedPhoto).bind (onPrevious photos)).map Photo.id
            = some selectedPhoto.id
        ∧ ((onPrevious photos selectedPhoto).bind (onNext photos)).map Photo.id
            = some selectedPhoto.id)
    ∧ (photos.length = 1 →
        (onNext photos selectedPhoto).map Photo.id = some selectedPhoto.id
        ∧ (onPrevious photos selectedPhoto).map Photo.id = some selectedPhoto.id) := by
  have hlt := findIdx_lt_of_mem hmem
  have hlenpos : 0 < photos.length := Nat.lt_of_le_of_lt (Nat.zero_le _) hlt
  refine ⟨onNext_eq hmem, onPrevious_eq hmem, ?_, ?_⟩
  · intro hlen
    constructor
    · have hjlt : ((photos.findIdx fun p => p.id == selectedPhoto.id) + 1)
          % photos.length < photos.length := Nat.mod_lt _ hlenpos
      rw [onNext_eq hmem, List.getElem?_eq_getElem hjlt, Option.some_bind]
      have hqmem : (photos[((photos.findIdx fun p => p.id == selectedPhoto.id) + 1)
          % photos.length]).id ∈ photos.map Photo.id :=
        List.mem_map_of_mem Photo.id (photos.getElem_mem hjlt)
      rw [onPrevious_eq hqmem, findIdx_getElem_id hnd hjlt,
        nav_next_prev_index hlt hlen]
      exact getElem?_map_id_findIdx hmem
    · have hjlt : (if (photos.findIdx fun p => p.id == selectedPhoto.id) = 0
          then photos.length - 1
          else (photos.findIdx fun p => p.id == selectedPhoto.id) - 1)
          < photos.length := by
        by_cases h0 : (photos.findIdx fun p => p.id == selectedPhoto.id) = 0 <;>
          simp [h0] <;> omega
      rw [onPrevious_eq hmem, List.getElem?_eq_getElem hjlt, Option.some_bind]
      have hqmem : (photos[if (photos.findIdx fun p => p.id == selectedPhoto.id) = 0
          then photos.length - 1
          else (photos.findIdx fun p => p.id == selectedPhoto.id) - 1]).id
          ∈ photos.map Photo.id :=
        List.mem_map_of_mem Photo.id (photos.getElem_mem hjlt)
      rw [onNext_eq hqmem, findIdx_getElem_id hnd hjlt,
        nav_prev_next_index hlt hlen]
      exact getElem?_map_id_findIdx hmem
  · intro hlen
    have hfi0 : (photos.findIdx fun p => p.id == selectedPhoto.id) = 0 := by omega
    constructor
    · have hidx : ((photos.findIdx fun p => p.id == selectedPhoto.id) + 1)
          % photos.length = photos.findIdx fun p => p.id == selectedPhoto.id := by
        rw [hfi0, hlen]
      rw [onNext_eq hmem, hidx]
      exact getElem?_map_id_findIdx hmem
    · have hidx : (if (photos.findIdx fun p => p.id == selectedPhoto.id) = 0
          then photos.length - 1
          else (photos.findIdx fun p => p.id == selectedPhoto.id) - 1)
          = photos.findIdx fun p => p.id == selectedPhoto.id := by
        rw [hfi0, hlen]
        simp
      rw [onPrevious_eq hmem, hidx]
      exact getElem?_map_id_findIdx hmem

/-- Witness for `viewer_nav_spec` on a two-photo sequence. -/
theorem viewer_nav_spec_witness :
    (([samplePhoto "a", samplePhoto "b"].map Photo.id).Nodup
      ∧ (samplePhoto "a").id ∈ [samplePhoto "a", samplePhoto "b"].map Photo.id)
    ∧ ((onNext [samplePhoto "a", samplePhoto "b"] (samplePhoto "a")).bind
          (onPrevious [samplePhoto "a", samplePhoto "b"])).map Photo.id
        = some (samplePhoto "a").id :=
  ⟨⟨by decide, by decide⟩,
    ((viewer_nav_spec [samplePhoto "a", samplePhoto "b"] (samplePhoto "a")
        (by decide) (by decide)).2.2.1 (by decide)).1⟩

theorem map_id_getElem_ne {photos : List Photo}
    (hnd : (photos.map Photo.id).Nodup) {j k : Nat}
    (hj : j < photos.length) (hk : k < photos.length) (hjk : j ≠ k) :
    photos[j].id ≠ photos[k].id := by
  intro he
  apply hjk
  have hjm : j < (photos.map Photo.id).length := by simpa using hj
  have hkm : k < (photos.map Photo.id).length := by simpa using hk
  have hmapeq : (photos.map Photo.id)[j] = (photos.map Photo.id)[k] := by
    simpa [List.getElem_map] using he
  exact (hnd.getElem_inj_iff).mp hmapeq

theorem next_index_ne {i n : Nat} (_hi : i < n) (hn : 1 < n) : (i + 1) % n ≠ i := by
  rcases Nat.lt_or_ge (i + 1) n with hc | hc
  · rw [Nat.mod_eq_of_lt hc]
    omega
  · have hceq : i + 1 = n := by omega
    rw [hceq, Nat.mod_self]
    omega

theorem prev_index_ne {i n : Nat} (_hi : i < n) (hn : 1 < n) :
    (if i = 0 then n - 1 else i - 1) ≠ i := by
  by_cases h0 : i = 0 <;> simp [h0] <;> omega

/-- C2 (amended): on a sequence with pairwise-distinct ids containing the
current photo's id, `next` and `previous` reset zoom to `1` and pan to
`(0, 0)` whenever the sequence has length `> 1` (the photo id changes, so
the reset effect fires); on a length-one sequence both operations keep the
current photo id *and keep the previous zoom and pan* — the reset effect is
keyed on `photo.id` and does not fire. -/
theorem viewer_reset_spec (photos : List Photo) (st : ViewerState)
    (hnd : (photos.map Photo.id).Nodup)
    (hmem : st.current.id ∈ photos.map Photo.id) :
    (1 < photos.length →
        (viewerNext photos st).map (fun s => (s.zoom, s.panX, s.panY))
            = some (1, 0, 0)
        ∧ (viewerPrevious photos st).map (fun s => (s.zoom, s.panX, s.panY))
            = some (1, 0, 0))
    ∧ (photos.length = 1 →
        (viewerNext photos st).map (fun s => (s.current.id, s.zoom, s.panX, s.panY))
            = some (st.current.id, st.zoom, st.panX, st.panY)
        ∧ (viewerPrevious photos st).map
              (fun s => (s.current.id, s.zoom, s.panX, s.panY))
            = some (st.current.id, st.zoom, st.panX, st.panY)) := by
  have hlt := findIdx_lt_of_mem hmem
  have hid := id_getElem_findIdx hmem
  have hlenpos : 0 < photos.length := Nat.lt_of_le_of_lt (Nat.zero_le _) hlt
  constructor
  · intro hlen
    constructor
    · have hjlt : ((photos.findIdx fun p => p.id == st.current.id) + 1)
          % photos.length < photos.length := Nat.mod_lt _ hlenpos
      have hqid : (photos[((photos.findIdx fun p => p.id == st.current.id) + 1)
          % photos.length]).id ≠ st.current.id := fun he =>
        map_id_getElem_ne hnd hjlt hlt (next_index_ne hlt hlen)
          (he.trans hid.symm)
      unfold viewerNext
      rw [onNext_eq hmem, List.getElem?_eq_getElem hjlt]
      simp [hqid]
    · have hjlt : (if (photos.findIdx fun p => p.id == st.current.id) = 0
          then photos.length - 1
          else (photos.findIdx fun p => p.id == st.current.id) - 1)
          < photos.length := by
        by_cases h0 : (photos.findIdx fun p => p.id == st.current.id) = 0 <;>
          simp [h0] <;> omega
      have hqid : (photos[if (photos.findIdx fun p => p.id == st.current.id) = 0
          then photos.length - 1
          else (photos.findIdx fun p => p.id == st.current.id) - 1]).id
          ≠ st.current.id := fun he =>
        map_id_getElem_ne hnd hjlt hlt (prev_index_ne hlt hlen)
          (he.trans hid.symm)
      unfold viewerPrevious
      rw [onPrevious_eq hmem, List.getElem?_eq_getElem hjlt]
      simp [hqid]
  · intro hlen
    have hfi0 : (photos.findIdx fun p => p.id == st.current.id) = 0 := by omega
    constructor
    · have hidx : ((photos.findIdx fun p => p.id == st.current.id) + 1)
          % photos.length = photos.findIdx fun p => p.id == st.current.id := by
        rw [hfi0, hlen]
      unfold viewerNext
      rw [onNext_eq hmem, hidx, List.getElem?_eq_getElem hlt]
      have hid2 : photos[photos.findIdx fun p => p.id == st.current.id].id
          = st.current.id := id_getElem_findIdx hmem
      simp [hid2]
    · have hidx : (if (photos.findIdx fun p => p.id == st.current.id) = 0
          then photos.length - 1
          else (photos.findIdx fun p => p.id == st.current.id) - 1)
          = photos.findIdx fun p => p.id == st.current.id := by
        rw [hfi0, hlen]
        simp
      unfold viewerPrevious
      rw [onPrevious_eq hmem, hidx, List.getElem?_eq_getElem hlt]
      have hid2 : photos[photos.findIdx fun p => p.id == st.current.id].id
          = st.current.id := id_getElem_findIdx hmem
      simp [hid2]

/-- Counterexample to C2 as stated: on a one-element sequence, `next` does
not reset a zoomed-in viewer — the zoom stays at `1.5` because `photo.id`
does not change and the reset effect never fires. -/
theorem viewer_reset_counterexample :
    (viewerNext [samplePhoto "a"]
        { current := samplePhoto "a", zoom := handleZoomIn 1,
          panX := 0, panY := 0 }).map ViewerState.zoom = some (3 / 2)
    ∧ (3 / 2 : ℚ) ≠ 1 := by
  constructor
  · have h1 : (viewerNext [samplePhoto "a"]
        { current := samplePhoto "a", zoom := handleZoomIn 1,
          panX := 0, panY := 0 }).map ViewerState.zoom
        = some (handleZoomIn 1) := rfl
    rw [h1]
    have hz : handleZoomIn 1 = 3 / 2 := by
      unfold handleZoomIn
      norm_num
    rw [hz]
  · norm_num

/-- Witness for `viewer_reset_spec` on a two-photo sequence. -/
theorem viewer_reset_spec_witness :
    (([samplePhoto "a", samplePhoto "b"].map Photo.id).Nodup
      ∧ ({ current := samplePhoto "a", zoom := 3, panX := 4, panY := 5 }
            : ViewerState).current.id
          ∈ [samplePhoto "a", samplePhoto "b"].map Photo.id)
    ∧ (viewerNext [samplePhoto "a", samplePhoto "b"]
          { current := samplePhoto "a", zoom := 3, panX := 4, panY := 5 }).map
          (fun s => (s.zoom, s.panX, s.panY)) = some (1, 0, 0) :=
  ⟨⟨by decide, by decide⟩,
    ((viewer_reset_spec [samplePhoto "a", samplePhoto "b"]
        { current := samplePhoto "a", zoom := 3, panX := 4, panY := 5 }
        (by decide) (by decide)).1 (by decide)).1⟩

/-- C10: when the viewer's current photo id is absent from the (non-empty)
display sequence, `findIndex` yields `-1`, so `next` lands on index
`(-1 + 1) mod length = 0` — the first element — while `previous` computes
index `-2` and reads out of bounds, producing an undefined (`none`) photo;
neither operation guards against the absent id. -/
theorem viewer_absent_spec (photos : List Photo) (selectedPhoto : Photo)
    (hne : photos ≠ [])
    (habs : selectedPhoto.id ∉ photos.map Photo.id) :
    findIndexJS photos selectedPhoto.id = -1
    ∧ onNext photos selectedPhoto = some (photos.head hne)
    ∧ prevIndexJS photos selectedPhoto.id = -2
    ∧ onPrevious photos selectedPhoto = none := by
  have hnone : photos.findIdx? (fun p => p.id == selectedPhoto.id) = none :=
    List.findIdx?_eq_none_iff.mpr fun x hx => by
      have : x.id ≠ selectedPhoto.id :=
        fun he => habs (he ▸ List.mem_map_of_mem Photo.id hx)
      simpa using this
  have hfind : findIndexJS photos selectedPhoto.id = -1 := by
    unfold findIndexJS
    rw [hnone]
  have hlenpos : 0 < photos.length := List.length_pos.mpr hne
  have hprev : prevIndexJS photos selectedPhoto.id = -2 := by
    unfold prevIndexJS
    rw [hfind, if_neg (by norm_num)]
    norm_num
  refine ⟨hfind, ?_, hprev, ?_⟩
  · unfold onNext nextIndexJS
    rw [hfind]
    have h0 : (-1 + 1 : Int) = ((0 : Nat) : Int) := by norm_num
    rw [h0, ← Int.ofNat_tmod, getJS_ofNat, Nat.zero_mod]
    rw [List.getElem?_eq_getElem hlenpos]
    rw [List.head_eq_getElem photos hne]
  · unfold onPrevious
    rw [hprev]
    unfold getJS
    rw [dif_neg]
    intro hcon
    have : ¬((0 : Int) ≤ -2) := by norm_num
    exact this hcon.1

/-- Witness for `viewer_absent_spec`: current id `"b"` absent from the
one-photo sequence `["a"]`. -/
theorem viewer_absent_spec_witness :
    (([samplePhoto "a"] : List Photo) ≠ []
      ∧ (samplePhoto "b").id ∉ [samplePhoto "a"].map Photo.id)
    ∧ (findIndexJS [samplePhoto "a"] (samplePhoto "b").id = -1
      ∧ onNext [samplePhoto "a"] (samplePhoto "b") = some (samplePhoto "a")
      ∧ prevIndexJS [samplePhoto "a"] (samplePhoto "b").id = -2
      ∧ onPrevious [samplePhoto "a"] (samplePhoto "b") = none) :=
  ⟨⟨by decide, by decide⟩,
    viewer_absent_spec [samplePhoto "a"] (samplePhoto "b") (by decide) (by decide)⟩

theorem groupInv_nil : GroupInv [] [] := by
  refine ⟨List.nodup_nil, ?_, ?_⟩ <;> intro e he <;> simp at he

theorem groupInv_step {processed : List Photo}
    {acc : List (String × List Photo)} (h : GroupInv processed acc)
    (photo : Photo) :
    GroupInv (processed ++ [photo]) (addToGroup acc photo) := by
  obtain ⟨hnd, hbuckets, hkeys⟩ := h
  unfold addToGroup
  by_cases hany : acc.any fun e => e.1 == formatDate photo.uploadedAt
  · rw [if_pos hany]
    have hsamekeys : ((acc.map fun e =>
        if e.1 == formatDate photo.uploadedAt then (e.1, e.2 ++ [photo]) else e).map
          Prod.fst) = acc.map Prod.fst := by
      rw [List.map_map]
      refine List.map_congr_left fun e he => ?_
      by_cases hh : e.1 == formatDate photo.uploadedAt
      · have hlab : e.1 = formatDate photo.uploadedAt := by simpa using hh
        simp [hh, hlab]
      · have hlab : ¬e.1 = formatDate photo.uploadedAt := by simpa using hh
        simp [hh, hlab]
    refine ⟨hsamekeys ▸ hnd, ?_, ?_⟩
    · intro e he
      obtain ⟨e₀, he₀, rfl⟩ := List.mem_map.mp he
      by_cases hh : e₀.1 == formatDate photo.uploadedAt
      · have hlab : e₀.1 = formatDate photo.uploadedAt := by simpa using hh
        rw [if_pos hh]
        show e₀.2 ++ [photo] = _
        rw [List.filter_append, hbuckets e₀ he₀]
        congr 1
        simp [hlab]
      · have hlab : ¬e₀.1 = formatDate photo.uploadedAt := by simpa using hh
        rw [if_neg hh]
        show e₀.2 = _
        rw [List.filter_append, hbuckets e₀ he₀]
        have : (formatDate photo.uploadedAt == e₀.1) = false := by
          simpa using fun hc => hlab hc.symm
        simp [this]
    · intro p hp
      rw [hsamekeys]
      rcases List.mem_append.mp hp with hp | hp
      · exact hkeys p hp
      · have hpe : p = photo := by simpa using hp
        subst hpe
        obtain ⟨e, he, hbe⟩ := List.any_eq_true.mp hany
        have : e.1 = formatDate p.uploadedAt := by simpa using hbe
        exact this ▸ List.mem_map_of_mem Prod.fst he
  · rw [if_neg hany]
    have hall : ∀ e ∈ acc, ¬e.1 = formatDate photo.uploadedAt := by
      intro e he heq
      exact hany (List.any_eq_true.mpr ⟨e, he, by simp [heq]⟩)
    have hnotin : formatDate photo.uploadedAt ∉ acc.map Prod.fst := by
      intro hmem
      obtain ⟨e, he, heq⟩ := List.mem_map.mp hmem
      exact hall e he heq
    refine ⟨?_, ?_, ?_⟩
    · rw [List.map_append]
      simp [List.nodup_append, hnd, hnotin]
    · intro e he
      rcases List.mem_append.mp he with he | he
      · have hlab := hall e he
        rw [List.filter_append, hbuckets e he]
        have : (formatDate photo.uploadedAt == e.1) = false := by
          simpa using fun hc => hlab hc.symm
        simp [this]
      · have hee : e = (formatDate photo.uploadedAt, [photo]) := by simpa using he
        subst hee
        show [photo] = _
        rw [List.filter_append]
        have hproc : processed.filter
            (fun p => formatDate p.uploadedAt == formatDate photo.uploadedAt) = [] := by
          rw [List.filter_eq_nil_iff]
          intro p hp
          have hmem := hkeys p hp
          simp only [beq_iff_eq]
          intro hc
          exact hnotin (hc ▸ hmem)
        rw [hproc]
        simp
    · intro p hp
      rw [List.map_append]
      rcases List.mem_append.mp hp with hp | hp
      · exact List.mem_append_left _ (hkeys p hp)
      · have hpe : p = photo := by simpa using hp
        subst hpe
        exact List.mem_append_right _ (by simp)

theorem groupInv_foldl (photos : List Photo) :
    ∀ (processed : List Photo) (acc : List (String × List Photo)),
      GroupInv processed acc →
      GroupInv (processed ++ photos) (photos.foldl addToGroup acc) := by
  induction photos with
  | nil =>
    intro processed acc h
    simpa using h
  | cons photo photos ih =>
    intro processed acc h
    have h2 := ih (processed ++ [photo]) (addToGroup acc photo) (groupInv_step h photo)
    simpa [List.append_assoc] using h2

theorem groupedPhotos_inv (photos : List Photo) :
    GroupInv photos (groupedPhotos photos) := by
  have := groupInv_foldl photos [] [] groupInv_nil
  simpa [groupedPhotos] using this

/-- C7: `groupByDate` partitions its input — each bucket holds exactly the
input photos carrying its label, in input order (stable grouping), bucket
labels are pairwise distinct, every input photo's label has a bucket (so
each photo lies in exactly one bucket), and the buckets are ordered
non-increasingly by the date parsed from their labels. -/
theorem groupByDate_spec (photos : List Photo) :
    (∀ e ∈ groupByDate photos,
        e.2 = photos.filter fun p => formatDate p.uploadedAt == e.1)
    ∧ ((groupByDate photos).map Prod.fst).Nodup
    ∧ (∀ p ∈ photos, formatDate p.uploadedAt ∈ (groupByDate photos).map Prod.fst)
    ∧ (groupByDate photos).Pairwise fun a b => parseDay b.1 ≤ parseDay a.1 := by
  obtain ⟨hnd, hbuckets, hkeys⟩ := groupedPhotos_inv photos
  have hperm : List.Perm (groupByDate photos) (groupedPhotos photos) :=
    List.mergeSort_perm (groupedPhotos photos) bucketLE
  refine ⟨?_, ?_, ?_, ?_⟩
  · intro e he
    exact hbuckets e (hperm.mem_iff.mp he)
  · exact ((hperm.map Prod.fst).nodup_iff).mpr hnd
  · intro p hp
    exact ((hperm.map Prod.fst).mem_iff).mpr (hkeys p hp)
  · have htrans : ∀ a b c : String × List Photo,
        bucketLE a b → bucketLE b c → bucketLE a c := by
      intro a b c hab hbc
      simp only [bucketLE, decide_eq_true_eq] at *
      omega
    have htotal : ∀ a b : String × List Photo, bucketLE a b || bucketLE b a := by
      intro a b
      simp only [bucketLE, Bool.or_eq_true, decide_eq_true_eq]
      exact Nat.le_total _ _
    have hsorted := List.sorted_mergeSort htrans htotal (groupedPhotos photos)
    exact hsorted.imp fun hab => by simpa [bucketLE] using hab

end PhotosClone
